import Mathlib

/-!
Verification development for the work-tracker repository.

The program keeps an ordered list of work entries in a single data file.
`src/main.rs` holds the complete CLI program: the inline data model
(`WorkDataFile`, `WorkEntry`, `WorkEntryStatus`, `FileVersion`), the action
dispatch in `main`, and the loader `get_or_create_file_file`.  The module
files `src/work_data_file.rs`, `src/work_entry.rs`, `src/work_entry_id.rs`
and `src/work_entry_status.rs` hold a newer "nested" generation of the data
model (`FileVersion::{Initial, Nested}` with `current() = Nested`,
`is_current`, hierarchical ids, child entries, `add_child_entry`).

Timestamps (`Utc::now()`) are modelled by an explicit `now : Nat` argument.
`usize` ids are modelled as `Nat`.  eyre errors are modelled as `Except
String` carrying the literal error messages of the source.
-/

set_option linter.unusedVariables false

/-- Status of a work entry (src/main.rs:180-184 and src/work_entry_status.rs). -/
inductive WorkEntryStatus where
  | Created
  | Completed
deriving DecidableEq

/-- A work entry of the flat (main.rs) generation (src/main.rs:138-146).
`created_at` / `modified_at` are abstract clock values. -/
structure WorkEntry where
  id : Nat
  name : String
  description : Option String
  createdAt : Nat
  modifiedAt : Nat
  status : WorkEntryStatus
deriving DecidableEq

/-- WorkEntry::new (src/main.rs:149-158): both timestamps set to now,
status starts at Created. -/
def WorkEntry.new (id : Nat) (name : String) (description : Option String)
    (now : Nat) : WorkEntry :=
  { id := id, name := name, description := description,
    createdAt := now, modifiedAt := now, status := WorkEntryStatus.Created }

/-- WorkEntry::complete (src/main.rs:160-163): refresh modified_at and set
status to Completed. -/
def WorkEntry.complete (e : WorkEntry) (now : Nat) : WorkEntry :=
  { e with modifiedAt := now, status := WorkEntryStatus.Completed }

/-- WorkEntry::is_completed (src/main.rs:175-177). -/
def WorkEntry.isCompleted (e : WorkEntry) : Bool :=
  e.status == WorkEntryStatus.Completed

/-- FileVersion (src/work_data_file.rs:89-93).  The enum inlined in
src/main.rs:133-136 has only the `Initial` variant; the module file adds
`Nested`.  The embedding uses the two-variant enum so that statements about
the version gate can be made; main.rs itself only ever constructs (and can
only deserialize) `Initial`. -/
inductive FileVersion where
  | Initial
  | Nested
deriving DecidableEq

/-- FileVersion::current (src/work_data_file.rs:95-99). -/
def FileVersion.current : FileVersion := FileVersion.Nested

/-- The persisted store of the main.rs generation (src/main.rs:60-64). -/
structure WorkDataFile where
  version : FileVersion
  entries : List WorkEntry
deriving DecidableEq

/-- WorkDataFile::new (src/main.rs:67-72): version tag Initial, no entries. -/
def WorkDataFile.new : WorkDataFile :=
  { version := FileVersion.Initial, entries := [] }

/-- WorkDataFile::is_current (src/work_data_file.rs:17-20), stated on the
store shape of the embedding: the loaded version equals current(). -/
def WorkDataFile.isCurrent (s : WorkDataFile) : Bool :=
  s.version == FileVersion.current

/-- The id computation inside add_entry (src/main.rs:75-81):
`entries.iter().map(id).max().map(v + 1).unwrap_or(0)`. -/
def WorkDataFile.nextId (s : WorkDataFile) : Nat :=
  (((s.entries.map (fun e => e.id)).max?).map (fun v => v + 1)).getD 0

/-- WorkDataFile::add_entry (src/main.rs:74-85): build a fresh entry with the
computed id and push it at the end of the sequence. -/
def WorkDataFile.addEntry (s : WorkDataFile) (name : String)
    (description : Option String) (now : Nat) : WorkDataFile :=
  { s with entries := s.entries ++ [WorkEntry.new s.nextId name description now] }

/-- WorkDataFile::get_entry (src/main.rs:108-114): first entry with the id. -/
def WorkDataFile.getEntry (s : WorkDataFile) (id : Nat) : Option WorkEntry :=
  s.entries.find? (fun e => e.id == id)

/-- WorkDataFile::get_entry_or_first (src/main.rs:116-122): resolve the id if
given (propagating the not-found error), otherwise the last non-completed
entry, if any. -/
def WorkDataFile.getEntryOrFirst (s : WorkDataFile) (id : Option Nat) :
    Except String (Option WorkEntry) :=
  match id with
  | some i =>
    match s.getEntry i with
    | some e => Except.ok (some e)
    | none => Except.error "Failed to find entry with the provided ID"
  | none => Except.ok ((s.entries.filter (fun e => !e.isCompleted)).getLast?)

/-- Resolution-and-removal as performed by the Remove and Prio handlers:
get_index_for_id (src/main.rs:97-106) followed by Vec::remove at that index,
which returns the removed element and closes the gap.  Finds the first entry
whose id matches and returns it together with the remaining list. -/
def extractFirstById (id : Nat) :
    List WorkEntry → Option (WorkEntry × List WorkEntry)
  | [] => none
  | e :: rest =>
    if e.id == id then some (e, rest)
    else (extractFirstById id rest).map (fun p => (p.1, e :: p.2))

/-- Mutation through get_entry_mut (src/main.rs:124-130): find the first
entry whose id matches and run the handler body `f` on it in place; `f` may
itself bail (the Complete handler's ensure).  When no entry matches, fail
with get_entry_mut's error message. -/
def mutateFirstById (id : Nat) (f : WorkEntry → Except String WorkEntry) :
    List WorkEntry → Except String (List WorkEntry)
  | [] => Except.error "Failed to find entry with the provided ID"
  | e :: rest =>
    if e.id == id then (f e).map (fun e2 => e2 :: rest)
    else (mutateFirstById id f rest).map (fun l => e :: l)

/-- The CLI actions (src/main.rs:24-58).  `Show` is named showCmd because
`show` is a Lean keyword. -/
inductive WorkAction where
  | add (name : String) (description : Option String)
  | edit (id : Nat) (description : String)
  | list (all : Bool)
  | showCmd (id : Option Nat)
  | remove (id : Nat)
  | complete (id : Nat)
  | prio (id : Nat)

/-- The action dispatch of main (src/main.rs:214-300).  `none` is a bare
invocation (the "what should I work on" query).  The returned Bool records
whether the handler called save (the file write itself is modelled by
`saveFile` below); an error return means the process exits before any save.
Note that the Edit arm (src/main.rs:270-273) mutates the entry but performs
no save, unlike every other mutating arm. -/
def runAction (action : Option WorkAction) (now : Nat) (s : WorkDataFile) :
    Except String (WorkDataFile × Bool) :=
  match action with
  | none => Except.ok (s, false)
  | some (WorkAction.add name description) =>
    if name.length > 28 then Except.error "Name can have at most 28 chars"
    else Except.ok (s.addEntry name description now, true)
  | some (WorkAction.list _all) => Except.ok (s, false)
  | some (WorkAction.remove id) =>
    match extractFirstById id s.entries with
    | none => Except.error "No entry with the provided ID"
    | some (_, rest) => Except.ok ({ s with entries := rest }, true)
  | some (WorkAction.complete id) =>
    match mutateFirstById id
        (fun e =>
          if e.isCompleted then
            Except.error "Entry is already marked as completed"
          else Except.ok (e.complete now)) s.entries with
    | Except.error msg => Except.error msg
    | Except.ok l => Except.ok ({ s with entries := l }, true)
  | some (WorkAction.prio id) =>
    match extractFirstById id s.entries with
    | none => Except.error "No entry with the provided ID"
    | some (e, rest) =>
      Except.ok ({ s with entries := rest ++ [{ e with modifiedAt := now }] }, true)
  | some (WorkAction.edit id description) =>
    match mutateFirstById id
        (fun e => Except.ok { e with description := some description }) s.entries with
    | Except.error msg => Except.error msg
    | Except.ok l => Except.ok ({ s with entries := l }, false)
  | some (WorkAction.showCmd id) =>
    match s.getEntryOrFirst id with
    | Except.error msg => Except.error msg
    | Except.ok _ => Except.ok (s, false)

/-- The sequence of rows printed by the List handler (src/main.rs:233-242):
iterate the entries in reverse, skipping completed entries unless all. -/
def listEntries (all : Bool) (s : WorkDataFile) : List WorkEntry :=
  s.entries.reverse.filter (fun e => !(!all && e.isCompleted))

/-- get_or_create_file_file (src/main.rs:305-325) over an abstract file
state: outer none = no file at the path (first run), inner none = a file
whose contents fail to deserialize, inner some = the successfully
deserialized store.  The Bool records whether the file was written.  On the
existing-file path the parsed store is returned as-is: no version check is
performed anywhere in the function. -/
def getOrCreateFileFile (fileContents : Option (Option WorkDataFile)) :
    Except String (WorkDataFile × Bool) :=
  match fileContents with
  | none => Except.ok (WorkDataFile.new, true)
  | some none => Except.error "Failed to parse file work entries"
  | some (some f) => Except.ok (f, false)

/-- WorkDataFile::save (src/main.rs:87-95) at the abstraction of
`getOrCreateFileFile`'s file state: serialize the whole store (it is taken
by shared reference and not modified) and overwrite the file with it. -/
def saveFile (s : WorkDataFile) : Option (Option WorkDataFile) :=
  some (some s)

/-- Stores reachable by the program: the fresh store written on first run,
closed under successful runs of the action dispatch. -/
inductive Reachable : WorkDataFile → Prop
  | init : Reachable WorkDataFile.new
  | step {s s' : WorkDataFile} {a : Option WorkAction} {now : Nat} {saved : Bool} :
      Reachable s → runAction a now s = Except.ok (s', saved) → Reachable s'

/-- Iterated add_entry starting from the fresh empty store, with arbitrary
names, descriptions and clock values per call. -/
def addSeq (k : Nat) (names : Nat → String) (descs : Nat → Option String)
    (times : Nat → Nat) : WorkDataFile :=
  (List.range k).foldl
    (fun s j => s.addEntry (names j) (descs j) (times j)) WorkDataFile.new

namespace Nested

/-- WorkEntryId (src/work_entry_id.rs:22-23): one path component. -/
structure WorkEntryId where
  val : Nat
deriving DecidableEq

/-- WorkEntryId::next (src/work_entry_id.rs:40-44). -/
def WorkEntryId.next (i : WorkEntryId) : WorkEntryId :=
  WorkEntryId.mk (i.val + 1)

/-- WorkEntryIdFull (src/work_entry_id.rs:6-7): a path of components. -/
structure WorkEntryIdFull where
  path : List WorkEntryId
deriving DecidableEq

/-- WorkEntry of the nested generation (src/work_entry.rs:7-16): same fields
as the flat generation plus an ordered list of child entries. -/
inductive WorkEntry where
  | mk (id : WorkEntryId) (name : String) (description : Option String)
      (createdAt : Nat) (modifiedAt : Nat) (status : WorkEntryStatus)
      (children : List WorkEntry)

/-- The nested-generation store (src/work_data_file.rs:11-15). -/
structure WorkDataFile where
  version : FileVersion
  entries : List WorkEntry

/-- WorkDataFile::is_current (src/work_data_file.rs:17-20). -/
def WorkDataFile.isCurrent (s : WorkDataFile) : Bool :=
  s.version == FileVersion.current

/-- Result of an operation that may return normally, return an error, or
abort the process with a panic (Rust's todo! macro panics). -/
inductive RunResult (α : Type) where
  | ok (value : α)
  | err (msg : String)
  | panicked (msg : String)

/-- WorkDataFile::add_child_entry (src/work_data_file.rs:36-43): the body is
`todo!("Not updated")`, so every call panics before looking at any argument;
no child is attached and no error value is returned. -/
def WorkDataFile.addChildEntry (s : WorkDataFile) (name : String)
    (description : Option String) (parent : WorkEntryIdFull) :
    RunResult WorkDataFile :=
  RunResult.panicked "Not updated"

end Nested

/-! ### Helper lemmas about the list operations of the embedding -/

lemma nat_max?_eq_some_iff {a : Nat} {xs : List Nat} :
    xs.max? = some a ↔ a ∈ xs ∧ ∀ b ∈ xs, b ≤ a :=
  List.max?_eq_some_iff (fun _ => Nat.le_refl _) (fun x y => max_choice x y)
    (fun _ _ _ => Nat.max_le)

lemma nextId_gt_of_mem {s : WorkDataFile} {v : Nat}
    (hv : v ∈ s.entries.map (fun e => e.id)) : v < s.nextId := by
  rcases hmax : (s.entries.map (fun e => e.id)).max? with _ | m
  · rw [List.max?_eq_none_iff] at hmax
    rw [hmax] at hv
    exact absurd hv (List.not_mem_nil v)
  · have hle := (nat_max?_eq_some_iff.mp hmax).2 v hv
    have hnext : s.nextId = m + 1 := by
      simp [WorkDataFile.nextId, hmax]
    omega

lemma nodup_append_singleton {α : Type} {l : List α} {a : α}
    (hl : l.Nodup) (ha : a ∉ l) : (l ++ [a]).Nodup := by
  rw [show l ++ [a] = l ++ a :: [] from rfl, List.nodup_middle]
  simp [List.nodup_cons, ha, hl]

lemma extractFirstById_append (id : Nat) (l₁ l₂ : List WorkEntry) (e : WorkEntry)
    (hskip : ∀ x ∈ l₁, x.id ≠ id) (hid : e.id = id) :
    extractFirstById id (l₁ ++ e :: l₂) = some (e, l₁ ++ l₂) := by
  induction l₁ with
  | nil => simp [extractFirstById, hid]
  | cons a t ih =>
    have ha : a.id ≠ id := hskip a (by simp)
    have ht := ih (fun x hx => hskip x (by simp [hx]))
    simp [extractFirstById, ha, ht]

lemma extractFirstById_eq_some {id : Nat} {l rest : List WorkEntry} {e : WorkEntry}
    (h : extractFirstById id l = some (e, rest)) :
    ∃ l₁ l₂, l = l₁ ++ e :: l₂ ∧ rest = l₁ ++ l₂ ∧ e.id = id ∧
      ∀ x ∈ l₁, x.id ≠ id := by
  induction l generalizing rest with
  | nil => simp [extractFirstById] at h
  | cons a t ih =>
    by_cases ha : a.id = id
    · simp [extractFirstById, ha] at h
      obtain ⟨rfl, rfl⟩ := h
      exact ⟨[], t, rfl, rfl, ha, by simp⟩
    · rw [show extractFirstById id (a :: t) =
          (extractFirstById id t).map (fun p => (p.1, a :: p.2)) by
        simp [extractFirstById, ha]] at h
      rcases hx : extractFirstById id t with _ | ⟨e1, r1⟩
      · rw [hx] at h; simp at h
      · rw [hx] at h; simp at h
        obtain ⟨h1, h2⟩ := h
        subst h1
        obtain ⟨l₁, l₂, ht, hr, hid, hskip⟩ := ih hx
        refine ⟨a :: l₁, l₂, by simp [ht], by simp [← h2, hr], hid, ?_⟩
        intro x hx2
        rcases List.mem_cons.mp hx2 with rfl | hx3
        · exact ha
        · exact hskip x hx3

lemma mutateFirstById_append (id : Nat) (f : WorkEntry → Except String WorkEntry)
    (l₁ l₂ : List WorkEntry) (e : WorkEntry)
    (hskip : ∀ x ∈ l₁, x.id ≠ id) (hid : e.id = id) :
    mutateFirstById id f (l₁ ++ e :: l₂) =
      (f e).map (fun e2 => l₁ ++ e2 :: l₂) := by
  induction l₁ with
  | nil =>
    simp [mutateFirstById, hid]
  | cons a t ih =>
    have ha : a.id ≠ id := hskip a (by simp)
    have ht := ih (fun x hx => hskip x (by simp [hx]))
    simp [mutateFirstById, ha, ht]
    cases f e <;> simp [Except.map]

lemma mutateFirstById_eq_ok {id : Nat} {f : WorkEntry → Except String WorkEntry}
    {l l' : List WorkEntry} (h : mutateFirstById id f l = Except.ok l') :
    ∃ l₁ e e' l₂, l = l₁ ++ e :: l₂ ∧ l' = l₁ ++ e' :: l₂ ∧ e.id = id ∧
      f e = Except.ok e' ∧ ∀ x ∈ l₁, x.id ≠ id := by
  induction l generalizing l' with
  | nil => simp [mutateFirstById] at h
  | cons a t ih =>
    by_cases ha : a.id = id
    · rw [show mutateFirstById id f (a :: t) = (f a).map (fun e2 => e2 :: t) by
        simp [mutateFirstById, ha]] at h
      rcases hfa : f a with msg | v
      · rw [hfa] at h; simp [Except.map] at h
      · rw [hfa] at h; simp [Except.map] at h
        exact ⟨[], a, v, t, rfl, by simp [h], ha, hfa, by simp⟩
    · rw [show mutateFirstById id f (a :: t) =
          (mutateFirstById id f t).map (fun l2 => a :: l2) by
        simp [mutateFirstById, ha]] at h
      rcases hm : mutateFirstById id f t with msg | l2
      · rw [hm] at h; simp [Except.map] at h
      · rw [hm] at h; simp [Except.map] at h
        obtain ⟨l₁, e, e', l₂, ht, hl2, hid, hf, hskip⟩ := ih hm
        refine ⟨a :: l₁, e, e', l₂, by simp [ht], by simp [← h, hl2], hid, hf, ?_⟩
        intro x hx
        rcases List.mem_cons.mp hx with rfl | hx2
        · exact ha
        · exact hskip x hx2

lemma runAction_nodup {s s' : WorkDataFile} {a : Option WorkAction} {now : Nat}
    {saved : Bool}
    (hn : (s.entries.map (fun e => e.id)).Nodup)
    (h : runAction a now s = Except.ok (s', saved)) :
    (s'.entries.map (fun e => e.id)).Nodup := by
  cases a with
  | none =>
    simp [runAction] at h
    obtain ⟨h1, h2⟩ := h
    subst h1
    exact hn
  | some act =>
    cases act with
    | add name d =>
      by_cases hlen : name.length > 28
      · simp [runAction, hlen] at h
      · simp [runAction, hlen] at h
        obtain ⟨h1, h2⟩ := h
        subst h1
        simp only [WorkDataFile.addEntry, List.map_append, List.map_cons, List.map_nil]
        refine nodup_append_singleton hn ?_
        intro hmem
        have hid : (WorkEntry.new s.nextId name d now).id = s.nextId := rfl
        rw [hid] at hmem
        exact absurd (nextId_gt_of_mem hmem) (lt_irrefl _)
    | list all =>
      simp [runAction] at h
      obtain ⟨h1, h2⟩ := h
      subst h1
      exact hn
    | showCmd i =>
      rcases hg : s.getEntryOrFirst i with msg | v
      · simp [runAction, hg] at h
      · simp [runAction, hg] at h
        obtain ⟨h1, h2⟩ := h
        subst h1
        exact hn
    | remove i =>
      rcases hx : extractFirstById i s.entries with _ | ⟨e, rest⟩
      · simp [runAction, hx] at h
      · simp [runAction, hx] at h
        obtain ⟨h1, h2⟩ := h
        subst h1
        obtain ⟨l₁, l₂, hl, hrest, hid, hskip⟩ := extractFirstById_eq_some hx
        rw [hl] at hn
        rw [List.map_append, List.map_cons, List.nodup_middle] at hn
        simp only [hrest, List.map_append]
        exact (List.nodup_cons.mp hn).2
    | complete i =>
      rcases hm : mutateFirstById i
          (fun e =>
            if e.isCompleted then
              Except.error "Entry is already marked as completed"
            else Except.ok (e.complete now)) s.entries with msg | l2
      · simp [runAction, hm] at h
      · simp [runAction, hm] at h
        obtain ⟨h1, h2⟩ := h
        subst h1
        obtain ⟨l₁, e, e', l₂, hl, hl2, hid, hf, hskip⟩ := mutateFirstById_eq_ok hm
        have hide : e'.id = e.id := by
          by_cases hc : e.isCompleted
          · simp [hc] at hf
          · simp [hc] at hf
            rw [← hf]
            rfl
        rw [hl] at hn
        simp only [hl2, List.map_append, List.map_cons] at hn ⊢
        rw [hide]
        exact hn
    | prio i =>
      rcases hx : extractFirstById i s.entries with _ | ⟨e, rest⟩
      · simp [runAction, hx] at h
      · simp [runAction, hx] at h
        obtain ⟨h1, h2⟩ := h
        subst h1
        obtain ⟨l₁, l₂, hl, hrest, hid, hskip⟩ := extractFirstById_eq_some hx
        rw [hl] at hn
        rw [List.map_append, List.map_cons, List.nodup_middle] at hn
        have hn2 := List.nodup_cons.mp hn
        simp only [hrest, List.map_append, List.map_cons, List.map_nil]
        have hidm : ({ e with modifiedAt := now } : WorkEntry).id = e.id := rfl
        rw [hidm]
        exact nodup_append_singleton hn2.2 hn2.1
    | edit i d =>
      rcases hm : mutateFirstById i
          (fun e => Except.ok { e with description := some d }) s.entries with msg | l2
      · simp [runAction, hm] at h
      · simp [runAction, hm] at h
        obtain ⟨h1, h2⟩ := h
        subst h1
        obtain ⟨l₁, e, e', l₂, hl, hl2, hid, hf, hskip⟩ := mutateFirstById_eq_ok hm
        have hide : e'.id = e.id := by
          simp at hf
          rw [← hf]
        rw [hl] at hn
        simp only [hl2, List.map_append, List.map_cons] at hn ⊢
        rw [hide]
        exact hn

lemma reachable_nodup {s : WorkDataFile} (h : Reachable s) :
    (s.entries.map (fun e => e.id)).Nodup := by
  induction h with
  | init => simp [WorkDataFile.new]
  | step hr heq ih => exact runAction_nodup ih heq

lemma range_max? (k : Nat) : (List.range (k + 1)).max? = some k := by
  rw [nat_max?_eq_some_iff]
  exact ⟨List.mem_range.mpr (Nat.lt_succ_self k),
    fun b hb => Nat.lt_succ_iff.mp (List.mem_range.mp hb)⟩

lemma addSeq_ids (k : Nat) (names : Nat → String) (descs : Nat → Option String)
    (times : Nat → Nat) :
    (addSeq k names descs times).entries.map (fun e => e.id) = List.range k := by
  induction k with
  | zero => simp [addSeq, WorkDataFile.new]
  | succ j ih =>
    have hstep : addSeq (j + 1) names descs times =
        (addSeq j names descs times).addEntry (names j) (descs j) (times j) := by
      simp [addSeq, List.range_succ, List.foldl_append]
    have hnext : (addSeq j names descs times).nextId = j := by
      cases j with
      | zero => simp [WorkDataFile.nextId, ih]
      | succ m => simp [WorkDataFile.nextId, ih, range_max? m]
    rw [hstep]
    simp only [WorkDataFile.addEntry, List.map_append, List.map_cons, List.map_nil, ih,
      hnext, List.range_succ]
    rfl

/-! ### Concrete inputs used by counterexamples and witnesses -/

/-- An empty store tagged with the old `Initial` schema version. -/
def initialTagged : WorkDataFile :=
  { version := FileVersion.Initial, entries := [] }

/-- A single fresh entry with id 0. -/
def editDemoEntry : WorkEntry := WorkEntry.new 0 "task" none 0

/-- A store holding just `editDemoEntry`. -/
def editDemoStore : WorkDataFile :=
  { version := FileVersion.Initial, entries := [editDemoEntry] }

/-- An entry with id 0 whose status is already Completed. -/
def completedEntry : WorkEntry :=
  { id := 0, name := "task", description := none, createdAt := 0, modifiedAt := 0,
    status := WorkEntryStatus.Completed }

/-- A store holding just `completedEntry`. -/
def completedStore : WorkDataFile :=
  { version := FileVersion.Initial, entries := [completedEntry] }

/-! ### Claim C1 -/

/-- C1 counterexample: a store tagged `Initial` (version different from
current() = Nested) is returned by get_or_create_file_file as a successful
load, with no write of the file, instead of failing with a VersionMismatch
error.  This refutes the claim that load fails when the version differs. -/
theorem C1_counterexample :
    initialTagged.isCurrent = false ∧
    getOrCreateFileFile (some (some initialTagged)) =
      Except.ok (initialTagged, false) :=
  ⟨rfl, rfl⟩

/-- C1 (amended): get_or_create_file_file performs no version check at all:
every byte stream that deserializes successfully into a Store is returned as
the loaded Store, without failing and without mutating the file, even when
its version tag differs from current(). -/
theorem C1_amended (f : WorkDataFile) (h : f.isCurrent = false) :
    getOrCreateFileFile (some (some f)) = Except.ok (f, false) :=
  rfl

/-- Witness for C1_amended at the concrete Initial-tagged store. -/
theorem C1_amended_witness :
    getOrCreateFileFile (some (some initialTagged)) =
      Except.ok (initialTagged, false) :=
  C1_amended initialTagged rfl

/-! ### Claim C2 -/

/-- C2 (code bug): the Edit handler mutates the entry in memory and returns
success, but its saved-flag is false: unlike every other mutating handler it
never calls save, so the successful edit is not persisted.  The second
conjunct shows the claim's true half: a remove of an absent id fails before
any save, leaving the store untouched. -/
theorem C2_edit_not_saved :
    runAction (some (WorkAction.edit 0 "new desc")) 5 editDemoStore =
      Except.ok ({ editDemoStore with
        entries := [{ editDemoEntry with description := some "new desc" }] }, false) ∧
    runAction (some (WorkAction.remove 5)) 5 editDemoStore =
      Except.error "No entry with the provided ID" :=
  ⟨rfl, rfl⟩

/-! ### Claim C3 -/

/-- C3 counterexample: the Edit action of the program takes only an id and a
mandatory description (no status argument exists in the WorkAction type of
the CLI), and editing a Completed entry leaves its status Completed: a
Completed entry cannot be reverted to Created via edit. -/
theorem C3_counterexample :
    runAction (some (WorkAction.edit 0 "try to revert")) 9 completedStore =
      Except.ok ({ completedStore with
        entries := [{ completedEntry with description := some "try to revert" }] },
        false) ∧
    ({ completedEntry with description := some "try to revert" }).status =
      WorkEntryStatus.Completed :=
  ⟨rfl, rfl⟩

/-- C3 (amended): the edit operation takes a mandatory description and no
status argument; a successful edit never changes the status of any entry in
the store, so in particular a Completed entry stays Completed. -/
theorem C3_amended (s : WorkDataFile) (i : Nat) (d : String) (now : Nat)
    (s' : WorkDataFile) (saved : Bool)
    (h : runAction (some (WorkAction.edit i d)) now s = Except.ok (s', saved)) :
    s'.entries.map (fun e => e.status) = s.entries.map (fun e => e.status) := by
  rcases hm : mutateFirstById i
      (fun e => Except.ok { e with description := some d }) s.entries with msg | l2
  · simp [runAction, hm] at h
  · simp [runAction, hm] at h
    obtain ⟨h1, h2⟩ := h
    subst h1
    obtain ⟨l₁, e, e', l₂, hl, hl2, hid, hf, hskip⟩ := mutateFirstById_eq_ok hm
    have hst : e'.status = e.status := by
      simp at hf
      rw [← hf]
    simp only [hl, hl2, List.map_append, List.map_cons, hst]

/-- Witness for C3_amended at the concrete completed store. -/
theorem C3_amended_witness :
    ({ completedStore with
      entries := [{ completedEntry with description := some "x" }] } :
        WorkDataFile).entries.map (fun e => e.status) =
      completedStore.entries.map (fun e => e.status) :=
  C3_amended completedStore 0 "x" 1
    { completedStore with
      entries := [{ completedEntry with description := some "x" }] } false rfl

/-! ### Claim C4 -/

/-- C4: for every reachable store and every operation of the program, an
entry whose status is Completed never has its status changed back to a
non-Completed value.  Part one covers the whole CLI dispatch (add, edit,
list, show, remove, complete, prio and the bare query): any entry of the
result store carrying the id of a previously Completed entry is still
Completed.  Part two covers load: the loader returns the deserialized store
verbatim.  Part three covers save: the written file contents are exactly the
store, unchanged. -/
theorem C4_completed_stays :
    (∀ s : WorkDataFile, Reachable s →
      ∀ (a : Option WorkAction) (now : Nat) (s' : WorkDataFile) (saved : Bool),
        runAction a now s = Except.ok (s', saved) →
        ∀ e ∈ s.entries, e.status = WorkEntryStatus.Completed →
        ∀ e' ∈ s'.entries, e'.id = e.id → e'.status = WorkEntryStatus.Completed) ∧
    (∀ f : WorkDataFile, getOrCreateFileFile (some (some f)) = Except.ok (f, false)) ∧
    (∀ s : WorkDataFile, saveFile s = some (some s)) := by
  refine ⟨?_, fun f => rfl, fun s => rfl⟩
  intro s hreach a now s' saved h e he hst e' he' hid
  have hn := reachable_nodup hreach
  have hinj := List.inj_on_of_nodup_map hn
  have same_store : ∀ t : WorkDataFile, t = s → e' ∈ t.entries →
      e'.status = WorkEntryStatus.Completed := by
    intro t ht hmem
    subst ht
    have : e' = e := hinj hmem he hid
    rw [this, hst]
  cases a with
  | none =>
    simp [runAction] at h
    obtain ⟨h1, h2⟩ := h
    exact same_store s' h1.symm he'
  | some act =>
    cases act with
    | add name d =>
      by_cases hlen : name.length > 28
      · simp [runAction, hlen] at h
      · simp [runAction, hlen] at h
        obtain ⟨h1, h2⟩ := h
        subst h1
        simp only [WorkDataFile.addEntry] at he'
        rcases List.mem_append.mp he' with h3 | h3
        · have : e' = e := hinj h3 he hid
          rw [this, hst]
        · have h4 : e' = WorkEntry.new s.nextId name d now := List.mem_singleton.mp h3
          have h5 : e'.id = s.nextId := by rw [h4]; rfl
          have h6 : e.id < s.nextId :=
            nextId_gt_of_mem (List.mem_map_of_mem (fun x => x.id) he)
          rw [h5] at hid
          omega
    | list all =>
      simp [runAction] at h
      obtain ⟨h1, h2⟩ := h
      exact same_store s' h1.symm he'
    | showCmd i =>
      rcases hg : s.getEntryOrFirst i with msg | v
      · simp [runAction, hg] at h
      · simp [runAction, hg] at h
        obtain ⟨h1, h2⟩ := h
        exact same_store s' h1.symm he'
    | remove i =>
      rcases hx : extractFirstById i s.entries with _ | ⟨e0, rest⟩
      · simp [runAction, hx] at h
      · simp [runAction, hx] at h
        obtain ⟨h1, h2⟩ := h
        subst h1
        obtain ⟨l₁, l₂, hl, hrest, hid0, hskip⟩ := extractFirstById_eq_some hx
        have hmem : e' ∈ s.entries := by
          rw [hl]
          rcases List.mem_append.mp (hrest ▸ he') with h3 | h3
          · exact List.mem_append.mpr (Or.inl h3)
          · exact List.mem_append.mpr (Or.inr (List.mem_cons_of_mem e0 h3))
        have : e' = e := hinj hmem he hid
        rw [this, hst]
    | complete i =>
      rcases hm : mutateFirstById i
          (fun x =>
            if x.isCompleted then
              Except.error "Entry is already marked as completed"
            else Except.ok (x.complete now)) s.entries with msg | l2
      · simp [runAction, hm] at h
      · simp [runAction, hm] at h
        obtain ⟨h1, h2⟩ := h
        subst h1
        obtain ⟨l₁, e0, e0', l₂, hl, hl2, hid0, hf, hskip⟩ := mutateFirstById_eq_ok hm
        have he'' : e' ∈ l₁ ++ e0' :: l₂ := hl2 ▸ he'
        rcases List.mem_append.mp he'' with h3 | h3
        · have hmem : e' ∈ s.entries := by
            rw [hl]; exact List.mem_append.mpr (Or.inl h3)
          have : e' = e := hinj hmem he hid
          rw [this, hst]
        · rcases List.mem_cons.mp h3 with h4 | h4
          · subst h4
            by_cases hc : e0.isCompleted
            · simp [hc] at hf
            · simp [hc] at hf
              rw [← hf]
              rfl
          · have hmem : e' ∈ s.entries := by
              rw [hl]; exact List.mem_append.mpr (Or.inr (List.mem_cons_of_mem e0 h4))
            have : e' = e := hinj hmem he hid
            rw [this, hst]
    | edit i d =>
      rcases hm : mutateFirstById i
          (fun x => Except.ok { x with description := some d }) s.entries with msg | l2
      · simp [runAction, hm] at h
      · simp [runAction, hm] at h
        obtain ⟨h1, h2⟩ := h
        subst h1
        obtain ⟨l₁, e0, e0', l₂, hl, hl2, hid0, hf, hskip⟩ := mutateFirstById_eq_ok hm
        have hf' : e0' = { e0 with description := some d } := by
          simp at hf
          rw [← hf]
        have he'' : e' ∈ l₁ ++ e0' :: l₂ := hl2 ▸ he'
        rcases List.mem_append.mp he'' with h3 | h3
        · have hmem : e' ∈ s.entries := by
            rw [hl]; exact List.mem_append.mpr (Or.inl h3)
          have : e' = e := hinj hmem he hid
          rw [this, hst]
        · rcases List.mem_cons.mp h3 with h4 | h4
          · subst h4
            have h5 : e'.id = e0.id := by rw [hf']
            have hmem0 : e0 ∈ s.entries := by
              rw [hl]; exact List.mem_append.mpr (Or.inr (List.mem_cons_self e0 l₂))
            have h6 : e0 = e := hinj hmem0 he (h5 ▸ hid)
            rw [hf']
            show e0.status = WorkEntryStatus.Completed
            rw [h6, hst]
          · have hmem : e' ∈ s.entries := by
              rw [hl]; exact List.mem_append.mpr (Or.inr (List.mem_cons_of_mem e0 h4))
            have : e' = e := hinj hmem he hid
            rw [this, hst]
    | prio i =>
      rcases hx : extractFirstById i s.entries with _ | ⟨e0, rest⟩
      · simp [runAction, hx] at h
      · simp [runAction, hx] at h
        obtain ⟨h1, h2⟩ := h
        subst h1
        obtain ⟨l₁, l₂, hl, hrest, hid0, hskip⟩ := extractFirstById_eq_some hx
        have he'' : e' ∈ (l₁ ++ l₂) ++ [{ e0 with modifiedAt := now }] := by
          rw [← hrest]; exact he'
        rcases List.mem_append.mp he'' with h3 | h3
        · have hmem : e' ∈ s.entries := by
            rw [hl]
            rcases List.mem_append.mp h3 with h4 | h4
            · exact List.mem_append.mpr (Or.inl h4)
            · exact List.mem_append.mpr (Or.inr (List.mem_cons_of_mem e0 h4))
          have : e' = e := hinj hmem he hid
          rw [this, hst]
        · have h4 : e' = { e0 with modifiedAt := now } := List.mem_singleton.mp h3
          have h5 : e'.id = e0.id := by rw [h4]
          have hmem0 : e0 ∈ s.entries := by
            rw [hl]; exact List.mem_append.mpr (Or.inr (List.mem_cons_self e0 l₂))
          have h6 : e0 = e := hinj hmem0 he (h5 ▸ hid)
          rw [h4]
          show e0.status = WorkEntryStatus.Completed
          rw [h6, hst]

/-- The completed entry produced by adding "a" at time 0 and completing it
at time 1. -/
def c4entry : WorkEntry :=
  { id := 0, name := "a", description := none, createdAt := 0, modifiedAt := 1,
    status := WorkEntryStatus.Completed }

/-- The store holding `c4entry`, reachable from the fresh store. -/
def c4store : WorkDataFile :=
  { version := FileVersion.Initial, entries := [c4entry] }

lemma c4store_reachable : Reachable c4store :=
  Reachable.step
    (Reachable.step Reachable.init
      (show runAction (some (WorkAction.add "a" none)) 0 WorkDataFile.new =
        Except.ok (WorkDataFile.mk FileVersion.Initial
          [WorkEntry.new 0 "a" none 0], true) from rfl))
    (show runAction (some (WorkAction.complete 0)) 1
        { version := FileVersion.Initial, entries := [WorkEntry.new 0 "a" none 0] } =
      Except.ok (c4store, true) from rfl)

/-- Witness for C4_completed_stays: the bare query on the reachable store
holding one completed entry leaves that entry Completed. -/
theorem C4_witness : c4entry.status = WorkEntryStatus.Completed :=
  C4_completed_stays.1 c4store c4store_reachable none 2 c4store false rfl
    c4entry (by decide) rfl c4entry (by decide) rfl

/-! ### Claim C5 -/

/-- C5: add_entry appends the new entry at the end of the sequence with id
computed from the present entries: zero when the store is empty, and the
maximum existing id plus one otherwise; consequently successive add_entry
calls starting from the empty store assign ids 0, 1, 2, ... in call
order. -/
theorem C5_add_entry_ids :
    (∀ (s : WorkDataFile) (name : String) (d : Option String) (now : Nat),
      (s.addEntry name d now).entries =
        s.entries ++ [WorkEntry.new s.nextId name d now] ∧
      (s.entries = [] → s.nextId = 0) ∧
      ∀ m, (s.entries.map (fun e => e.id)).max? = some m → s.nextId = m + 1) ∧
    (∀ (k : Nat) (names : Nat → String) (descs : Nat → Option String)
        (times : Nat → Nat),
      (addSeq k names descs times).entries.map (fun e => e.id) = List.range k) := by
  refine ⟨fun s name d now => ⟨rfl, fun hemp => ?_, fun m hm => ?_⟩, addSeq_ids⟩
  · simp [WorkDataFile.nextId, hemp]
  · simp [WorkDataFile.nextId, hm]

/-- Witness for C5_add_entry_ids: the empty store assigns id 0, a store
whose only id is 0 assigns id 1, and three successive adds from the empty
store assign ids 0, 1, 2. -/
theorem C5_witness :
    WorkDataFile.new.nextId = 0 ∧
    (WorkDataFile.mk FileVersion.Initial
      [WorkEntry.new 0 "a" none 0]).nextId = 0 + 1 ∧
    (addSeq 3 (fun _ => "t") (fun _ => none) (fun j => j)).entries.map
      (fun e => e.id) = List.range 3 :=
  ⟨(C5_add_entry_ids.1 WorkDataFile.new "x" none 0).2.1 rfl,
   (C5_add_entry_ids.1 (WorkDataFile.mk FileVersion.Initial
      [WorkEntry.new 0 "a" none 0]) "x" none 0).2.2 0 rfl,
   C5_add_entry_ids.2 3 (fun _ => "t") (fun _ => none) (fun j => j)⟩

/-! ### Claim C6 -/

/-- C6: completing an entry whose status is Created succeeds, sets the
status to Completed, refreshes modified_at to the current clock, and saves;
a second complete of the same id on the resulting store fails with the
already-completed error (an error return, not a silent no-op), producing no
store and hence no save.  The store is given as any list containing a first
entry with the requested id. -/
theorem C6_complete_then_already (s : WorkDataFile) (i now now2 : Nat)
    (l₁ l₂ : List WorkEntry) (e : WorkEntry)
    (hsplit : s.entries = l₁ ++ e :: l₂)
    (hskip : ∀ x ∈ l₁, x.id ≠ i) (hid : e.id = i)
    (hst : e.status = WorkEntryStatus.Created) :
    runAction (some (WorkAction.complete i)) now s =
      Except.ok (WorkDataFile.mk s.version
        (l₁ ++ { e with modifiedAt := now, status := WorkEntryStatus.Completed } :: l₂),
        true) ∧
    runAction (some (WorkAction.complete i)) now2
        (WorkDataFile.mk s.version
          (l₁ ++ { e with modifiedAt := now, status := WorkEntryStatus.Completed } :: l₂)) =
      Except.error "Entry is already marked as completed" := by
  have hnc : e.isCompleted = false := by simp [WorkEntry.isCompleted, hst]
  constructor
  · have hmut := mutateFirstById_append i
      (fun x =>
        if x.isCompleted then
          Except.error "Entry is already marked as completed"
        else Except.ok (x.complete now)) l₁ l₂ e hskip hid
    simp only [runAction]
    rw [hsplit, hmut]
    simp [hnc, Except.map, WorkEntry.complete]
  · have hid2 :
        ({ e with modifiedAt := now, status := WorkEntryStatus.Completed } : WorkEntry).id
          = i := hid
    have hmut := mutateFirstById_append i
      (fun x =>
        if x.isCompleted then
          Except.error "Entry is already marked as completed"
        else Except.ok (x.complete now2)) l₁ l₂
      { e with modifiedAt := now, status := WorkEntryStatus.Completed } hskip hid2
    simp only [runAction]
    rw [hmut]
    simp [WorkEntry.isCompleted, Except.map]

/-- The completed form of the C6 witness entry. -/
def c6completed : WorkEntry :=
  { WorkEntry.new 0 "t" none 0 with modifiedAt := 1, status := WorkEntryStatus.Completed }

/-- Witness for C6_complete_then_already on a one-entry store. -/
theorem C6_witness :
    runAction (some (WorkAction.complete 0)) 1
        (WorkDataFile.mk FileVersion.Initial [WorkEntry.new 0 "t" none 0]) =
      Except.ok (WorkDataFile.mk FileVersion.Initial [c6completed], true) ∧
    runAction (some (WorkAction.complete 0)) 2
        (WorkDataFile.mk FileVersion.Initial [c6completed]) =
      Except.error "Entry is already marked as completed" :=
  C6_complete_then_already
    (WorkDataFile.mk FileVersion.Initial [WorkEntry.new 0 "t" none 0])
    0 1 2 [] [] (WorkEntry.new 0 "t" none 0) rfl (by simp) rfl rfl

/-! ### Claim C7 -/

/-- C7: list returns the entries in reverse sequence order; with
include_completed = true it is exactly the reversed sequence (all entries),
with include_completed = false it is the reversed sequence with Completed
entries filtered out, so no Completed entry ever appears in it. -/
theorem C7_list_order (s : WorkDataFile) :
    listEntries true s = s.entries.reverse ∧
    listEntries false s = s.entries.reverse.filter (fun e => !e.isCompleted) ∧
    ∀ e ∈ listEntries false s, e.status ≠ WorkEntryStatus.Completed := by
  refine ⟨by simp [listEntries], by simp [listEntries], ?_⟩
  intro e he
  have h2 : listEntries false s = s.entries.reverse.filter (fun e => !e.isCompleted) := by
    simp [listEntries]
  rw [h2, List.mem_filter] at he
  intro hc
  have := he.2
  simp [WorkEntry.isCompleted, hc] at this

/-- A completed entry used by the C7 and C8 witnesses. -/
def c7done : WorkEntry :=
  { id := 0, name := "x", description := none, createdAt := 0, modifiedAt := 0,
    status := WorkEntryStatus.Completed }

/-- A non-completed entry used by the C7 and C8 witnesses. -/
def c7open : WorkEntry := WorkEntry.new 1 "y" none 1

/-- A store holding one completed and one open entry. -/
def c7store : WorkDataFile :=
  { version := FileVersion.Initial, entries := [c7done, c7open] }

/-- Witness for C7_list_order: the open entry of the two-entry store is
listed and is not Completed. -/
theorem C7_witness : c7open.status ≠ WorkEntryStatus.Completed :=
  (C7_list_order c7store).2.2 c7open (by decide)

/-! ### Claim C8 -/

/-- C8: reprioritizing any entry with the given id (completed or not, as
the Prio handler is unconditional) removes it from its position, refreshes
its modified_at to the current clock, and re-appends it at the end of the
sequence (and saves); when the entry is additionally not completed, it is
the first element of list(false) on the resulting store. -/
theorem C8_prio_first (s : WorkDataFile) (i now : Nat)
    (l₁ l₂ : List WorkEntry) (e : WorkEntry)
    (hsplit : s.entries = l₁ ++ e :: l₂)
    (hskip : ∀ x ∈ l₁, x.id ≠ i) (hid : e.id = i) :
    runAction (some (WorkAction.prio i)) now s =
      Except.ok (WorkDataFile.mk s.version
        ((l₁ ++ l₂) ++ [{ e with modifiedAt := now }]), true) ∧
    (e.isCompleted = false →
      (listEntries false (WorkDataFile.mk s.version
          ((l₁ ++ l₂) ++ [{ e with modifiedAt := now }]))).head? =
        some { e with modifiedAt := now }) := by
  constructor
  · have hx := extractFirstById_append i l₁ l₂ e hskip hid
    simp only [runAction]
    rw [hsplit, hx]
  · intro hnc
    have hnc2 : ({ e with modifiedAt := now } : WorkEntry).isCompleted = false := hnc
    simp [listEntries, List.reverse_append, List.filter_cons, hnc2]

/-- Witness for C8_prio_first: reprioritizing the open entry of the
two-entry store puts it at the end of the sequence and at the head of
list(false). -/
theorem C8_witness :
    runAction (some (WorkAction.prio 1)) 5 c7store =
      Except.ok (WorkDataFile.mk c7store.version
        (([c7done] ++ []) ++ [{ c7open with modifiedAt := 5 }]), true) ∧
    (listEntries false (WorkDataFile.mk c7store.version
        (([c7done] ++ []) ++ [{ c7open with modifiedAt := 5 }]))).head? =
      some { c7open with modifiedAt := 5 } :=
  ⟨(C8_prio_first c7store 1 5 [c7done] [] c7open rfl (by decide) rfl).1,
   (C8_prio_first c7store 1 5 [c7done] [] c7open rfl (by decide) rfl).2 rfl⟩

/-! ### Claim C9 -/

/-- C9 counterexample: on an empty nested store, attaching a child under the
unresolvable parent path [5] does not return a NotFound error: the body of
add_child_entry is todo!("Not updated"), so the call panics before looking
at its arguments.  A panic is not an ordinary returned error value. -/
theorem C9_counterexample :
    Nested.WorkDataFile.addChildEntry
        (Nested.WorkDataFile.mk FileVersion.Nested []) "child" none
        (Nested.WorkEntryIdFull.mk [Nested.WorkEntryId.mk 5]) =
      Nested.RunResult.panicked "Not updated" ∧
    Nested.RunResult.panicked (α := Nested.WorkDataFile) "Not updated" ≠
      Nested.RunResult.err "No entry with the provided ID" :=
  ⟨rfl, fun h => Nested.RunResult.noConfusion h⟩

/-- C9 (amended): add_child_entry is unimplemented: for every store, name,
description and parent path it panics with the todo message, attaching no
child and returning no error value (in particular it never fails NotFound,
even when the parent path does not resolve). -/
theorem C9_amended (s : Nested.WorkDataFile) (name : String)
    (description : Option String) (parent : Nested.WorkEntryIdFull) :
    s.addChildEntry name description parent =
      Nested.RunResult.panicked "Not updated" :=
  rfl

/-! ### Claim C10 -/

/-- A reachable store whose top-level ids are 0 and 5 (built by six adds
followed by removal of the entries with ids 1 to 4). -/
def c10store : WorkDataFile :=
  WorkDataFile.mk FileVersion.Initial
    [WorkEntry.new 0 "a" none 0, WorkEntry.new 5 "f" none 5]

lemma c10store_reachable : Reachable c10store := by
  have h1 : Reachable (WorkDataFile.mk FileVersion.Initial
      [WorkEntry.new 0 "a" none 0]) :=
    Reachable.step Reachable.init
      (show runAction (some (WorkAction.add "a" none)) 0 WorkDataFile.new =
        Except.ok (WorkDataFile.mk FileVersion.Initial
          [WorkEntry.new 0 "a" none 0], true) from rfl)
  have h2 : Reachable (WorkDataFile.mk FileVersion.Initial
      [WorkEntry.new 0 "a" none 0, WorkEntry.new 1 "b" none 1]) :=
    Reachable.step h1
      (show runAction (some (WorkAction.add "b" none)) 1 _ =
        Except.ok (WorkDataFile.mk FileVersion.Initial
          [WorkEntry.new 0 "a" none 0, WorkEntry.new 1 "b" none 1], true) from rfl)
  have h3 : Reachable (WorkDataFile.mk FileVersion.Initial
      [WorkEntry.new 0 "a" none 0, WorkEntry.new 1 "b" none 1,
        WorkEntry.new 2 "c" none 2]) :=
    Reachable.step h2
      (show runAction (some (WorkAction.add "c" none)) 2 _ =
        Except.ok (WorkDataFile.mk FileVersion.Initial
          [WorkEntry.new 0 "a" none 0, WorkEntry.new 1 "b" none 1,
            WorkEntry.new 2 "c" none 2], true) from rfl)
  have h4 : Reachable (WorkDataFile.mk FileVersion.Initial
      [WorkEntry.new 0 "a" none 0, WorkEntry.new 1 "b" none 1,
        WorkEntry.new 2 "c" none 2, WorkEntry.new 3 "d" none 3]) :=
    Reachable.step h3
      (show runAction (some (WorkAction.add "d" none)) 3 _ =
        Except.ok (WorkDataFile.mk FileVersion.Initial
          [WorkEntry.new 0 "a" none 0, WorkEntry.new 1 "b" none 1,
            WorkEntry.new 2 "c" none 2, WorkEntry.new 3 "d" none 3], true) from rfl)
  have h5 : Reachable (WorkDataFile.mk FileVersion.Initial
      [WorkEntry.new 0 "a" none 0, WorkEntry.new 1 "b" none 1,
        WorkEntry.new 2 "c" none 2, WorkEntry.new 3 "d" none 3,
        WorkEntry.new 4 "e" none 4]) :=
    Reachable.step h4
      (show runAction (some (WorkAction.add "e" none)) 4 _ =
        Except.ok (WorkDataFile.mk FileVersion.Initial
          [WorkEntry.new 0 "a" none 0, WorkEntry.new 1 "b" none 1,
            WorkEntry.new 2 "c" none 2, WorkEntry.new 3 "d" none 3,
            WorkEntry.new 4 "e" none 4], true) from rfl)
  have h6 : Reachable (WorkDataFile.mk FileVersion.Initial
      [WorkEntry.new 0 "a" none 0, WorkEntry.new 1 "b" none 1,
        WorkEntry.new 2 "c" none 2, WorkEntry.new 3 "d" none 3,
        WorkEntry.new 4 "e" none 4, WorkEntry.new 5 "f" none 5]) :=
    Reachable.step h5
      (show runAction (some (WorkAction.add "f" none)) 5 _ =
        Except.ok (WorkDataFile.mk FileVersion.Initial
          [WorkEntry.new 0 "a" none 0, WorkEntry.new 1 "b" none 1,
            WorkEntry.new 2 "c" none 2, WorkEntry.new 3 "d" none 3,
            WorkEntry.new 4 "e" none 4, WorkEntry.new 5 "f" none 5], true) from rfl)
  have h7 : Reachable (WorkDataFile.mk FileVersion.Initial
      [WorkEntry.new 0 "a" none 0, WorkEntry.new 2 "c" none 2,
        WorkEntry.new 3 "d" none 3, WorkEntry.new 4 "e" none 4,
        WorkEntry.new 5 "f" none 5]) :=
    Reachable.step h6
      (show runAction (some (WorkAction.remove 1)) 6 _ =
        Except.ok (WorkDataFile.mk FileVersion.Initial
          [WorkEntry.new 0 "a" none 0, WorkEntry.new 2 "c" none 2,
            WorkEntry.new 3 "d" none 3, WorkEntry.new 4 "e" none 4,
            WorkEntry.new 5 "f" none 5], true) from rfl)
  have h8 : Reachable (WorkDataFile.mk FileVersion.Initial
      [WorkEntry.new 0 "a" none 0, WorkEntry.new 3 "d" none 3,
        WorkEntry.new 4 "e" none 4, WorkEntry.new 5 "f" none 5]) :=
    Reachable.step h7
      (show runAction (some (WorkAction.remove 2)) 7 _ =
        Except.ok (WorkDataFile.mk FileVersion.Initial
          [WorkEntry.new 0 "a" none 0, WorkEntry.new 3 "d" none 3,
            WorkEntry.new 4 "e" none 4, WorkEntry.new 5 "f" none 5], true) from rfl)
  have h9 : Reachable (WorkDataFile.mk FileVersion.Initial
      [WorkEntry.new 0 "a" none 0, WorkEntry.new 4 "e" none 4,
        WorkEntry.new 5 "f" none 5]) :=
    Reachable.step h8
      (show runAction (some (WorkAction.remove 3)) 8 _ =
        Except.ok (WorkDataFile.mk FileVersion.Initial
          [WorkEntry.new 0 "a" none 0, WorkEntry.new 4 "e" none 4,
            WorkEntry.new 5 "f" none 5], true) from rfl)
  exact Reachable.step h9
    (show runAction (some (WorkAction.remove 4)) 9 _ =
      Except.ok (c10store, true) from rfl)

/-- C10 counterexample: on the reachable store with ids 0 and 5, removing
the entry holding the maximum id 5 and then adding assigns id 1 (the
remaining maximum 0 plus one), not the removed id 5, refuting the claim that
the removed maximal id is always reassigned to the new entry. -/
theorem C10_counterexample :
    Reachable c10store ∧
    runAction (some (WorkAction.remove 5)) 6 c10store =
      Except.ok (WorkDataFile.mk FileVersion.Initial
        [WorkEntry.new 0 "a" none 0], true) ∧
    runAction (some (WorkAction.add "g" none)) 7
        (WorkDataFile.mk FileVersion.Initial [WorkEntry.new 0 "a" none 0]) =
      Except.ok (WorkDataFile.mk FileVersion.Initial
        [WorkEntry.new 0 "a" none 0, WorkEntry.new 1 "g" none 7], true) ∧
    (WorkEntry.new 1 "g" none 7).id ≠ 5 :=
  ⟨c10store_reachable, rfl, rfl, by decide⟩

/-- C10 (amended): the auto-assigned id depends only on the ids of the
entries currently present (two stores with the same id sequence assign the
same next id), and after a remove the subsequent add assigns the remaining
maximum plus one: the removed id m is reused exactly when the remaining
maximum is m - 1 (for m nonzero; e.g. contiguous ids), so ids can be reused
over the history of the store but the removed maximal id is not always
reassigned. -/
theorem C10_amended :
    (∀ s t : WorkDataFile,
      s.entries.map (fun e => e.id) = t.entries.map (fun e => e.id) →
      s.nextId = t.nextId) ∧
    (∀ (s s1 : WorkDataFile) (m : Nat) (n : String) (d : Option String)
        (now now2 : Nat),
      runAction (some (WorkAction.remove m)) now s = Except.ok (s1, true) →
      (s1.entries.map (fun e => e.id)).max? = some (m - 1) → m ≠ 0 →
      n.length ≤ 28 →
      runAction (some (WorkAction.add n d)) now2 s1 =
        Except.ok (WorkDataFile.mk s1.version
          (s1.entries ++ [WorkEntry.new m n d now2]), true)) := by
  constructor
  · intro s t hids
    simp [WorkDataFile.nextId, hids]
  · intro s s1 m n d now now2 hrem hmax hm hlen
    have h1 : s1.nextId = m - 1 + 1 := by simp [WorkDataFile.nextId, hmax]
    have h2 : s1.nextId = m := by omega
    simp only [runAction]
    rw [if_neg (by omega)]
    simp [WorkDataFile.addEntry, h2]

/-- Witness for C10_amended: on the two-entry store with ids 0 and 1,
removing id 1 and adding again reuses id 1. -/
theorem C10_amended_witness :
    runAction (some (WorkAction.add "c" none)) 3
        (WorkDataFile.mk FileVersion.Initial [WorkEntry.new 0 "a" none 0]) =
      Except.ok (WorkDataFile.mk FileVersion.Initial
        ([WorkEntry.new 0 "a" none 0] ++ [WorkEntry.new 1 "c" none 3]), true) :=
  C10_amended.2
    (WorkDataFile.mk FileVersion.Initial
      [WorkEntry.new 0 "a" none 0, WorkEntry.new 1 "b" none 1])
    (WorkDataFile.mk FileVersion.Initial [WorkEntry.new 0 "a" none 0])
    1 "c" none 2 3 rfl rfl (by decide) (by decide)
